import Mathlib

/-!
Verification development for the Minaret prayer-times integration.

The definitions below are a shallow embedding of the schedule-computation core:
`custom_components/azan/coordinator.py` (normalization, snapshot building,
refresh reconciliation) and `custom_components/azan/sensor.py` (the read-model
queries). Python `datetime` values are modelled by `PyDateTime` (wall-clock
seconds plus an optional UTC offset), raw mappings by association lists in
insertion order, and raisable paths (`ValueError`, `UpdateFailed`) by `Except`.
-/

deriving instance DecidableEq for Except

namespace Minaret

/-- `PRAYER_ORDER` from `const.py`. -/
def PRAYER_ORDER : List String := ["Fajr", "Sunrise", "Dhuhr", "Asr", "Maghrib", "Isha"]

/-- Model of a Python `datetime`: `naive` is the wall-clock value in seconds
(relative to midnight of the schedule day), `tz` is the UTC offset in seconds
carried by `tzinfo` (`none` for a naive datetime). -/
structure PyDateTime where
  naive : Int
  tz : Option Int
deriving Repr, DecidableEq

/-- The instant an aware datetime denotes, in seconds (wall-clock value minus
UTC offset); Python compares aware datetimes by instant. -/
def instant (d : PyDateTime) : Int := d.naive - d.tz.getD 0

/-- `prayer_time.replace(tzinfo=now.tzinfo)` applied only when
`prayer_time.tzinfo is None` (sensor.py). -/
def coerce_tz (d now : PyDateTime) : PyDateTime :=
  match d.tz with
  | none => { d with tz := now.tz }
  | some _ => d

/-- The hour component a Python `datetime` holding `naive` seconds would report
(datetime arithmetic normalizes with floor semantics, positive remainder). -/
def dt_hour (d : PyDateTime) : Nat := ((d.naive.emod 86400).ediv 3600).toNat

/-- The minute component of a `PyDateTime` (see `dt_hour`). -/
def dt_minute (d : PyDateTime) : Nat := (((d.naive.emod 86400).emod 3600).ediv 60).toNat

/-- One prayer info dict as built by `_normalize_times` (coordinator.py). -/
structure Prayer where
  name : String
  time : PyDateTime
  time_str : String
  enabled : Bool
deriving Repr, DecidableEq

/-- The configuration values `_normalize_times` reads via `config.get`, with the
defaults used at each `get` site. -/
structure Config where
  prayer_fajr : Bool := true
  prayer_sunrise : Bool := false
  prayer_dhuhr : Bool := true
  prayer_asr : Bool := true
  prayer_maghrib : Bool := true
  prayer_isha : Bool := true
  suhoor_enabled : Bool := false
  suhoor_ramadan_only : Bool := true
  suhoor_offset_minutes : Int := 60
deriving Repr, DecidableEq

/-- The `enabled_map` dict of `_normalize_times` (coordinator.py lines 207-214);
`enabled_map.get(name, False)` for an absent key yields `false`. -/
def enabled_map (cfg : Config) (name : String) : Bool :=
  if name = "Fajr" then cfg.prayer_fajr
  else if name = "Sunrise" then cfg.prayer_sunrise
  else if name = "Dhuhr" then cfg.prayer_dhuhr
  else if name = "Asr" then cfg.prayer_asr
  else if name = "Maghrib" then cfg.prayer_maghrib
  else if name = "Isha" then cfg.prayer_isha
  else false

/-- Python `str.strip()`: remove whitespace from both ends. -/
def pyStrip (s : String) : String :=
  ⟨((s.data.dropWhile Char.isWhitespace).reverse.dropWhile Char.isWhitespace).reverse⟩

/-- Python `str.split(sep)` for a single-character separator, on the character
list: splitting the empty string yields `[[]]`, and separators are not kept. -/
def pySplitChar (sep : Char) : List Char → List (List Char)
  | [] => [[]]
  | c :: rest =>
    if c = sep then [] :: pySplitChar sep rest
    else
      match pySplitChar sep rest with
      | [] => [[c]]
      | h :: t => (c :: h) :: t

/-- Python `str.split(sep)` for a single-character separator; the result is
never the empty list, so Python `[0]` indexing is total. -/
def pySplit (s : String) (sep : Char) : List String :=
  (pySplitChar sep s.data).map String.mk

/-- Python `int(s)` on a string: strip whitespace, optional sign, then decimal
digits; `none` models `ValueError`. -/
def pyInt (s : String) : Option Int :=
  let t := (pyStrip s).data
  let sd : Int × List Char :=
    match t with
    | '-' :: r => (-1, r)
    | '+' :: r => (1, r)
    | r => (1, r)
  if sd.2 ≠ [] ∧ sd.2.all Char.isDigit then
    some (sd.1 * (sd.2.foldl (fun acc c => acc * 10 + (c.toNat - 48)) (0 : Nat) : Nat))
  else none

/-- `time_str.strip().split(" ")[0].split("(")[0].strip()`
(coordinator.py line 231). -/
def clean_time (s : String) : String :=
  pyStrip ((pySplit ((pySplit (pyStrip s) ' ').headD "") '(').headD "")


/-- `f"{n:02d}"` for a value in `0..99`. -/
def fmt2 (n : Nat) : String := if n < 10 then "0" ++ toString n else toString n

/-- The 12-hour disambiguation of `_normalize_times` (coordinator.py lines
239-241): Qatar MOI reports afternoon prayers in 12h form, so `Asr`, `Maghrib`
and `Isha` with a parsed hour below 10 get 12 added. -/
def adjust_hour (name : String) (hour : Int) : Int :=
  if (name = "Asr" ∨ name = "Maghrib" ∨ name = "Isha") ∧ hour < 10 then hour + 12 else hour

/-- The sort key of `_normalize_times` (coordinator.py lines 217-222):
`PRAYER_ORDER.index(name)` when present, else `99`. -/
def order_key (name : String) : Nat :=
  if name ∈ PRAYER_ORDER then PRAYER_ORDER.findIdx (· = name) else 99

/-- Stable insertion into a key-sorted list: the new element goes before the
first element it compares `le` to, hence after earlier equal-key elements. -/
def stable_insert {α : Type} (le : α → α → Bool) (x : α) : List α → List α
  | [] => [x]
  | y :: ys => if le x y then x :: y :: ys else y :: stable_insert le x ys

/-- A stable sort (a stable sort of a list under a total preorder is unique, so
this models Python's stable `sorted`). -/
def stable_sort {α : Type} (le : α → α → Bool) : List α → List α
  | [] => []
  | x :: xs => stable_insert le x (stable_sort le xs)

/-- `sorted(raw.items(), key=...)` (coordinator.py lines 217-222); Python
`sorted` is stable. -/
def sort_raw (raw : List (String × String)) : List (String × String) :=
  stable_sort (fun a b => decide (order_key a.1 ≤ order_key b.1)) raw

/-- Python `list.insert(i, x)`. -/
def insert_at {α : Type} (i : Nat) (x : α) (l : List α) : List α :=
  l.take i ++ x :: l.drop i

/-- The per-entry loop of `_normalize_times` (coordinator.py lines 224-257),
processed front to back over the order-sorted raw pairs. Returns the built
prayer list and the last-assigned `fajr_time`; `Except.error` models an
uncaught `ValueError` from `int()` or from `datetime.replace` on an
out-of-range hour or minute. -/
def normalize_loop (cfg : Config) : List (String × String) → Except String (List Prayer × Option PyDateTime)
  | [] => Except.ok ([], none)
  | (name, time_str) :: rest =>
    if name ∈ PRAYER_ORDER then
      let time_clean := clean_time time_str
      let parts := pySplit time_clean ':'
      if parts.length < 2 then normalize_loop cfg rest
      else
        match pyInt (parts.getD 0 ""), pyInt (parts.getD 1 "") with
        | some h0, some minute =>
          let hour := adjust_hour name h0
          if 0 ≤ hour ∧ hour ≤ 23 ∧ 0 ≤ minute ∧ minute ≤ 59 then
            let prayer_time : PyDateTime := ⟨hour * 3600 + minute * 60, none⟩
            let p : Prayer :=
              { name := name
                time := prayer_time
                time_str := fmt2 hour.toNat ++ ":" ++ fmt2 minute.toNat
                enabled := enabled_map cfg name }
            match normalize_loop cfg rest with
            | Except.ok (ps, ft) =>
                Except.ok (p :: ps,
                  ft.orElse fun _ => if name = "Fajr" then some prayer_time else none)
            | Except.error e => Except.error e
          else Except.error "ValueError: hour or minute out of range for replace"
        | _, _ => Except.error "ValueError: invalid literal for int"
    else normalize_loop cfg rest

/-- The Suhoor entry built at coordinator.py lines 265-271 from the recorded
`fajr_time`. -/
def suhoor_entry (cfg : Config) (ft : PyDateTime) : Prayer :=
  let suhoor_time : PyDateTime := { ft with naive := ft.naive - cfg.suhoor_offset_minutes * 60 }
  { name := "Suhoor"
    time := suhoor_time
    time_str := fmt2 (dt_hour suhoor_time) ++ ":" ++ fmt2 (dt_minute suhoor_time)
    enabled := true }

/-- `fajr_idx`: the insertion point for Suhoor (coordinator.py lines 272-275):
index of the first prayer named Fajr, defaulting to 0. -/
def fajr_idx (prayers : List Prayer) : Nat :=
  (prayers.findIdx? (fun p => p.name = "Fajr")).getD 0

/-- `AzanCoordinator._normalize_times` (coordinator.py lines 201-283): sort raw
pairs by canonical prayer order, run the per-entry loop, then inject Suhoor
before Fajr when configured. A `datetime` is always truthy, so
`if suhoor_enabled and fajr_time` tests `fajr_time is not None`. -/
def normalize_times (cfg : Config) (is_ramadan : Bool) (raw : List (String × String)) :
    Except String (List Prayer) :=
  match normalize_loop cfg (sort_raw raw) with
  | Except.error e => Except.error e
  | Except.ok (prayers, fajr_time) =>
    Except.ok <|
      match fajr_time with
      | some ft =>
        if cfg.suhoor_enabled then
          if cfg.suhoor_ramadan_only = false ∨ is_ramadan then
            insert_at (fajr_idx prayers) (suhoor_entry cfg ft) prayers
          else prayers
        else prayers
      | none => prayers

/-- `PrayerData` (coordinator.py lines 32-50); `played_today` starts empty and
`is_ramadan` is `(hijri_month == 9) if hijri_month else False` (so a falsy
month — `None` or `0` — gives `false`). -/
structure PrayerData where
  prayers : List Prayer
  date : String
  played_today : Finset String
  hijri_month : Option Int
  hijri_day : Option Int
  hijri_month_name : Option String
  is_ramadan : Bool
deriving DecidableEq

/-- `PrayerData.__init__` (coordinator.py lines 35-50). -/
def PrayerData.init (prayers : List Prayer) (date : String)
    (hijri_month hijri_day : Option Int) (hijri_month_name : Option String) : PrayerData :=
  { prayers := prayers
    date := date
    played_today := ∅
    hijri_month := hijri_month
    hijri_day := hijri_day
    hijri_month_name := hijri_month_name
    is_ramadan :=
      match hijri_month with
      | some m => if m ≠ 0 then decide (m = 9) else false
      | none => false }

/-- The snapshot-building tail of `_async_update_data` (coordinator.py lines
104-126): construct the new `PrayerData` and carry `played_today` forward when
the previous snapshot exists and has the same date. -/
def build_snapshot (prev : Option PrayerData) (today : String) (prayers : List Prayer)
    (hijri_month hijri_day : Option Int) (hijri_month_name : Option String) : PrayerData :=
  let data := PrayerData.init prayers today hijri_month hijri_day hijri_month_name
  match prev with
  | some d => if d.date = today then { data with played_today := d.played_today } else data
  | none => data

/-- `AzanCoordinator._async_update_data` (coordinator.py lines 75-126), with
the network fetch abstracted as an `Except` argument carrying the raw pairs and
hijri metadata. A failing fetch is re-raised as `UpdateFailed` (the
`try`/`except` at lines 83-102); `normalize_times` runs outside that `try`, so
its `ValueError` propagates as-is. -/
def async_update_data (cfg : Config) (prev : Option PrayerData) (today : String)
    (fetch : Except String (List (String × String) × Option Int × Option Int × Option String)) :
    Except String PrayerData :=
  match fetch with
  | Except.error err => Except.error ("Failed to fetch prayer times: " ++ err)
  | Except.ok (raw, hijri_month, hijri_day, hijri_month_name) =>
    let is_ramadan : Bool :=
      match hijri_month with
      | some m => if m ≠ 0 then decide (m = 9) else false
      | none => false
    match normalize_times cfg is_ramadan raw with
    | Except.error e => Except.error e
    | Except.ok prayers =>
        Except.ok (build_snapshot prev today prayers hijri_month hijri_day hijri_month_name)

/-- Modelled from the spec: the RefreshScheduler boundary (Home Assistant's
`DataUpdateCoordinator`, which is not part of this repository) installs the
returned snapshot on success and, on a raised `UpdateFailed`, retains the
previous snapshot unchanged while surfacing a degraded-update signal
(`false` in the second component). -/
def refresh_step (prev : Option PrayerData) (result : Except String PrayerData) :
    Option PrayerData × Bool :=
  match result with
  | Except.ok d => (some d, true)
  | Except.error _ => (prev, false)

/-- `PrayerTimeSensor._get_prayer` (sensor.py lines 131-138): first prayer dict
whose name matches, `none` when no coordinator data exists. -/
def get_prayer (data : Option PrayerData) (prayer_name : String) : Option Prayer :=
  match data with
  | none => none
  | some d => d.prayers.find? (fun p => p.name = prayer_name)

/-- `PrayerTimeSensor.native_value` (sensor.py lines 105-111). -/
def prayer_time_native_value (data : Option PrayerData) (prayer_name : String) : Option String :=
  match get_prayer data prayer_name with
  | some p => some p.time_str
  | none => none

/-- The data carried by `PrayerTimeSensor.extra_state_attributes` (sensor.py
lines 113-129), without the `datetime` iso string. -/
structure PrayerAttrs where
  enabled : Bool
  played : Bool
  prayer_name : String
deriving Repr, DecidableEq

/-- `PrayerTimeSensor.extra_state_attributes` (sensor.py lines 113-129):
`none` models the empty dict returned when the prayer is absent. -/
def prayer_time_attrs (data : Option PrayerData) (prayer_name : String) : Option PrayerAttrs :=
  match get_prayer data prayer_name with
  | none => none
  | some p =>
    let played : Bool :=
      match data with
      | some d => prayer_name ∈ d.played_today
      | none => false
    some { enabled := p.enabled, played := played, prayer_name := prayer_name }

/-- The scan loop of `NextPrayerSensor._get_next_prayer` (sensor.py lines
221-230): skip disabled entries, treat a naive entry time as being in `now`'s
timezone, return the first one strictly after `now`. -/
def next_enabled_scan (now : PyDateTime) : List Prayer → Option Prayer
  | [] => none
  | p :: rest =>
    if p.enabled = false then next_enabled_scan now rest
    else
      let pt := coerce_tz p.time now
      if instant now < instant pt then some p else next_enabled_scan now rest

/-- `NextPrayerSensor._get_next_prayer` (sensor.py lines 214-230). -/
def get_next_prayer_enabled (data : Option PrayerData) (now : PyDateTime) : Option Prayer :=
  match data with
  | none => none
  | some d => next_enabled_scan now d.prayers

/-- The scan loop of `AzanCountdownSensor._get_next_prayer` (sensor.py lines
313-319): same scan without the enabled filter. -/
def next_any_scan (now : PyDateTime) : List Prayer → Option Prayer
  | [] => none
  | p :: rest =>
    let pt := coerce_tz p.time now
    if instant now < instant pt then some p else next_any_scan now rest

/-- `AzanCountdownSensor._get_next_prayer` (sensor.py lines 307-319). -/
def get_next_prayer_any (data : Option PrayerData) (now : PyDateTime) : Option Prayer :=
  match data with
  | none => none
  | some d => next_any_scan now d.prayers

/-- The countdown computation of `AzanCountdownSensor.native_value` (sensor.py
lines 276-282) on a resolved prayer: `max(0, int(diff.total_seconds() / 60))`;
Python `int()` truncates toward zero, i.e. `Int.div`. -/
def countdown_minutes (p : Prayer) (now : PyDateTime) : Int :=
  let pt := coerce_tz p.time now
  max 0 ((instant pt - instant now).tdiv 60)

/-- `AzanCountdownSensor.native_value` (sensor.py lines 270-282). The code
calls `dt_util.now()` once inside `_get_next_prayer` and once afterwards, so
the two instants are distinct parameters (`now_resolve`, `now`). -/
def countdown_native_value (data : Option PrayerData) (now_resolve now : PyDateTime) : Option Int :=
  match get_next_prayer_any data now_resolve with
  | none => none
  | some p => some (countdown_minutes p now)

/-- The hours/minutes/seconds breakdown of
`AzanCountdownSensor.extra_state_attributes` (sensor.py lines 291-305):
`total_seconds = max(0, int(diff.total_seconds()))`, then Python floor
division and modulus (on a non-negative value). -/
def countdown_breakdown (p : Prayer) (now : PyDateTime) : Int × Int × Int :=
  let pt := coerce_tz p.time now
  let total_seconds := max 0 (instant pt - instant now)
  (total_seconds.ediv 3600, (total_seconds.emod 3600).ediv 60, total_seconds.emod 60)

/-- `RamadanSensor.native_value` (sensor.py lines 439-444). -/
def ramadan_native_value (data : Option PrayerData) : String :=
  match data with
  | none => "Unknown"
  | some d => if d.is_ramadan then "Yes" else "No"

/-- `AzanStatusSensor.native_value` (sensor.py lines 481-490), with the store's
`is_downloading` / `is_playing` truthiness as booleans. -/
def status_native_value (is_downloading is_playing : Bool) : String :=
  if is_downloading then "downloading" else if is_playing then "playing" else "idle"

/-! ### Helper lemmas -/

/-- `insert_at` is a permutation of consing the new element. -/
theorem insert_at_perm {α : Type} (j : Nat) (x : α) (l : List α) :
    List.Perm (insert_at j x l) (x :: l) := by
  have h : List.Perm (l.take j ++ x :: l.drop j) (x :: (l.take j ++ l.drop j)) :=
    List.perm_middle
  simpa [insert_at] using h

/-- Index formula for `insert_at` when the index is in range. -/
theorem insert_at_getElem {α : Type} :
    ∀ (j : Nat) (l : List α) (x : α) (i : Nat), j ≤ l.length →
      (insert_at j x l)[i]? = if i < j then l[i]? else if i = j then some x else l[i-1]?
  | 0, l, x, i, _ => by
      cases i with
      | zero => simp [insert_at]
      | succ i => simp [insert_at]
  | j+1, [], x, i, h => by simp at h
  | j+1, a :: l, x, i, h => by
      have hins : insert_at (j+1) x (a :: l) = a :: insert_at j x l := by
        simp [insert_at, List.take_succ_cons, List.drop_succ_cons]
      cases i with
      | zero => simp [hins]
      | succ i =>
          have ih := insert_at_getElem j l x i (Nat.le_of_succ_le_succ (by simpa using h))
          rw [hins, List.getElem?_cons_succ, ih]
          by_cases h1 : i < j
          · simp [h1, Nat.succ_lt_succ h1]
          · by_cases h2 : i = j
            · simp [h1, h2]
            · have h3 : ¬ i + 1 < j + 1 := by omega
              have h4 : ¬ i + 1 = j + 1 := by omega
              have h5 : 1 ≤ i := by omega
              simp only [if_neg h1, if_neg h2, if_neg h3, if_neg h4]
              have h6 : i + 1 - 1 = (i - 1) + 1 := by omega
              rw [h6, List.getElem?_cons_succ]

/-- Unfolding: a raw pair whose name is not canonical is skipped. -/
theorem normalize_loop_cons_not_mem (cfg : Config) {name : String} (ts : String)
    (rest : List (String × String)) (hname : name ∉ PRAYER_ORDER) :
    normalize_loop cfg ((name, ts) :: rest) = normalize_loop cfg rest := by
  rw [normalize_loop.eq_2, if_neg hname]

/-- Unfolding: a raw pair whose cleaned time has fewer than two colon
components is skipped. -/
theorem normalize_loop_cons_short (cfg : Config) {name ts : String}
    (rest : List (String × String)) (hmem : name ∈ PRAYER_ORDER)
    (hlen : (pySplit (clean_time ts) ':').length < 2) :
    normalize_loop cfg ((name, ts) :: rest) = normalize_loop cfg rest := by
  rw [normalize_loop.eq_2, if_pos hmem]
  dsimp only
  rw [if_pos hlen]

/-- Unfolding: a failing `int()` conversion aborts the loop. -/
theorem normalize_loop_cons_badint (cfg : Config) {name ts : String}
    (rest : List (String × String)) (hmem : name ∈ PRAYER_ORDER)
    (hlen : ¬ (pySplit (clean_time ts) ':').length < 2)
    (hbad : pyInt ((pySplit (clean_time ts) ':').getD 0 "") = none
      ∨ pyInt ((pySplit (clean_time ts) ':').getD 1 "") = none) :
    normalize_loop cfg ((name, ts) :: rest)
      = Except.error "ValueError: invalid literal for int" := by
  rw [normalize_loop.eq_2, if_pos hmem]
  dsimp only
  rw [if_neg hlen]
  rcases hbad with h | h
  · rw [h]
  · rw [h]
    cases pyInt ((pySplit (clean_time ts) ':').getD 0 "") <;> rfl

/-- Unfolding: an hour or minute outside `datetime.replace` range aborts the
loop. -/
theorem normalize_loop_cons_range_err (cfg : Config) {name ts : String}
    (rest : List (String × String)) {hr mr : Int} (hmem : name ∈ PRAYER_ORDER)
    (hlen : ¬ (pySplit (clean_time ts) ':').length < 2)
    (h0 : pyInt ((pySplit (clean_time ts) ':').getD 0 "") = some hr)
    (h1 : pyInt ((pySplit (clean_time ts) ':').getD 1 "") = some mr)
    (hrange : ¬ (0 ≤ adjust_hour name hr ∧ adjust_hour name hr ≤ 23 ∧ 0 ≤ mr ∧ mr ≤ 59)) :
    normalize_loop cfg ((name, ts) :: rest)
      = Except.error "ValueError: hour or minute out of range for replace" := by
  rw [normalize_loop.eq_2, if_pos hmem]
  dsimp only
  rw [if_neg hlen, h0, h1]
  dsimp only
  rw [if_neg hrange]

/-- The prayer dict built for one successfully parsed raw pair. -/
def loop_entry (cfg : Config) (name : String) (hr mr : Int) : Prayer :=
  { name := name
    time := ⟨adjust_hour name hr * 3600 + mr * 60, none⟩
    time_str := fmt2 (adjust_hour name hr).toNat ++ ":" ++ fmt2 mr.toNat
    enabled := enabled_map cfg name }

/-- Unfolding: a successfully parsed raw pair prepends its entry and updates
`fajr_time`. -/
theorem normalize_loop_cons_ok (cfg : Config) {name ts : String}
    (rest : List (String × String)) {hr mr : Int} (hmem : name ∈ PRAYER_ORDER)
    (hlen : ¬ (pySplit (clean_time ts) ':').length < 2)
    (h0 : pyInt ((pySplit (clean_time ts) ':').getD 0 "") = some hr)
    (h1 : pyInt ((pySplit (clean_time ts) ':').getD 1 "") = some mr)
    (hrange : 0 ≤ adjust_hour name hr ∧ adjust_hour name hr ≤ 23 ∧ 0 ≤ mr ∧ mr ≤ 59) :
    normalize_loop cfg ((name, ts) :: rest)
      = (match normalize_loop cfg rest with
         | Except.ok (ps, ft) =>
             Except.ok (loop_entry cfg name hr mr :: ps,
               ft.orElse fun _ =>
                 if name = "Fajr" then some ⟨adjust_hour name hr * 3600 + mr * 60, none⟩
                 else none)
         | Except.error e => Except.error e) := by
  rw [normalize_loop.eq_2, if_pos hmem]
  dsimp only
  rw [if_neg hlen, h0, h1]
  dsimp only
  rw [if_pos hrange]
  rfl

/-- Every prayer name emitted by the loop comes from the raw keys, in order. -/
theorem normalize_loop_names_sublist (cfg : Config) :
    ∀ (l : List (String × String)) (ps : List Prayer) (ft : Option PyDateTime),
      normalize_loop cfg l = Except.ok (ps, ft) →
      List.Sublist (ps.map Prayer.name) (l.map Prod.fst) := by
  intro l
  induction l with
  | nil =>
      intro ps ft h
      simp only [normalize_loop] at h
      cases h
      simp
  | cons hd tl ih =>
      intro ps ft h
      obtain ⟨name, ts⟩ := hd
      by_cases hmem : name ∈ PRAYER_ORDER
      · by_cases hlen : (pySplit (clean_time ts) ':').length < 2
        · rw [normalize_loop_cons_short cfg tl hmem hlen] at h
          exact (ih ps ft h).trans (List.sublist_cons_self _ _)
        · cases hp0 : pyInt ((pySplit (clean_time ts) ':').getD 0 "") with
          | none =>
              rw [normalize_loop_cons_badint cfg tl hmem hlen (Or.inl hp0)] at h
              cases h
          | some hr =>
              cases hp1 : pyInt ((pySplit (clean_time ts) ':').getD 1 "") with
              | none =>
                  rw [normalize_loop_cons_badint cfg tl hmem hlen (Or.inr hp1)] at h
                  cases h
              | some mr =>
                  by_cases hrange :
                      0 ≤ adjust_hour name hr ∧ adjust_hour name hr ≤ 23 ∧ 0 ≤ mr ∧ mr ≤ 59
                  · rw [normalize_loop_cons_ok cfg tl hmem hlen hp0 hp1 hrange] at h
                    cases hrec : normalize_loop cfg tl with
                    | ok pr =>
                        obtain ⟨ps', ft'⟩ := pr
                        rw [hrec] at h
                        cases h
                        simpa [loop_entry] using (ih ps' ft' hrec)
                    | error e => rw [hrec] at h; cases h
                  · rw [normalize_loop_cons_range_err cfg tl hmem hlen hp0 hp1 hrange] at h
                    cases h
      · rw [normalize_loop_cons_not_mem cfg ts tl hmem] at h
        exact (ih ps ft h).trans (List.sublist_cons_self _ _)

/-- Every prayer emitted by the loop has a canonical name. -/
theorem normalize_loop_names_mem (cfg : Config) :
    ∀ (l : List (String × String)) (ps : List Prayer) (ft : Option PyDateTime),
      normalize_loop cfg l = Except.ok (ps, ft) →
      ∀ p ∈ ps, p.name ∈ PRAYER_ORDER := by
  intro l
  induction l with
  | nil =>
      intro ps ft h
      simp only [normalize_loop] at h
      cases h
      simp
  | cons hd tl ih =>
      intro ps ft h
      obtain ⟨name, ts⟩ := hd
      by_cases hmem : name ∈ PRAYER_ORDER
      · by_cases hlen : (pySplit (clean_time ts) ':').length < 2
        · rw [normalize_loop_cons_short cfg tl hmem hlen] at h
          exact ih ps ft h
        · cases hp0 : pyInt ((pySplit (clean_time ts) ':').getD 0 "") with
          | none =>
              rw [normalize_loop_cons_badint cfg tl hmem hlen (Or.inl hp0)] at h
              cases h
          | some hr =>
              cases hp1 : pyInt ((pySplit (clean_time ts) ':').getD 1 "") with
              | none =>
                  rw [normalize_loop_cons_badint cfg tl hmem hlen (Or.inr hp1)] at h
                  cases h
              | some mr =>
                  by_cases hrange :
                      0 ≤ adjust_hour name hr ∧ adjust_hour name hr ≤ 23 ∧ 0 ≤ mr ∧ mr ≤ 59
                  · rw [normalize_loop_cons_ok cfg tl hmem hlen hp0 hp1 hrange] at h
                    cases hrec : normalize_loop cfg tl with
                    | ok pr =>
                        obtain ⟨ps', ft'⟩ := pr
                        rw [hrec] at h
                        cases h
                        intro p hp
                        rcases List.mem_cons.mp hp with rfl | hp'
                        · exact hmem
                        · exact ih ps' ft' hrec p hp'
                    | error e => rw [hrec] at h; cases h
                  · rw [normalize_loop_cons_range_err cfg tl hmem hlen hp0 hp1 hrange] at h
                    cases h
      · rw [normalize_loop_cons_not_mem cfg ts tl hmem] at h
        exact ih ps ft h

/-- If no raw pair is keyed `"Fajr"`, the loop records no `fajr_time`. -/
theorem normalize_loop_no_fajr (cfg : Config) :
    ∀ (l : List (String × String)) (ps : List Prayer) (ft : Option PyDateTime),
      normalize_loop cfg l = Except.ok (ps, ft) →
      "Fajr" ∉ l.map Prod.fst → ft = none := by
  intro l
  induction l with
  | nil =>
      intro ps ft h _
      simp only [normalize_loop] at h
      cases h
      rfl
  | cons hd tl ih =>
      intro ps ft h hno
      obtain ⟨name, ts⟩ := hd
      have hname : name ≠ "Fajr" := by
        intro hrfl
        exact hno (by simp [hrfl])
      have hno2 : "Fajr" ∉ tl.map Prod.fst := by
        intro hmm
        exact hno (by simp [hmm])
      by_cases hmem : name ∈ PRAYER_ORDER
      · by_cases hlen : (pySplit (clean_time ts) ':').length < 2
        · rw [normalize_loop_cons_short cfg tl hmem hlen] at h
          exact ih ps ft h hno2
        · cases hp0 : pyInt ((pySplit (clean_time ts) ':').getD 0 "") with
          | none =>
              rw [normalize_loop_cons_badint cfg tl hmem hlen (Or.inl hp0)] at h
              cases h
          | some hr =>
              cases hp1 : pyInt ((pySplit (clean_time ts) ':').getD 1 "") with
              | none =>
                  rw [normalize_loop_cons_badint cfg tl hmem hlen (Or.inr hp1)] at h
                  cases h
              | some mr =>
                  by_cases hrange :
                      0 ≤ adjust_hour name hr ∧ adjust_hour name hr ≤ 23 ∧ 0 ≤ mr ∧ mr ≤ 59
                  · rw [normalize_loop_cons_ok cfg tl hmem hlen hp0 hp1 hrange] at h
                    cases hrec : normalize_loop cfg tl with
                    | ok pr =>
                        obtain ⟨ps', ft'⟩ := pr
                        rw [hrec] at h
                        cases h
                        have hft' : ft' = none := ih ps' ft' hrec hno2
                        subst hft'
                        simp [Option.orElse, hname]
                    | error e => rw [hrec] at h; cases h
                  · rw [normalize_loop_cons_range_err cfg tl hmem hlen hp0 hp1 hrange] at h
                    cases h
      · rw [normalize_loop_cons_not_mem cfg ts tl hmem] at h
        exact ih ps ft h hno2

/-- When the loop records a `fajr_time`, some emitted prayer is a Fajr entry. -/
theorem normalize_loop_fajr_exists (cfg : Config) :
    ∀ (l : List (String × String)) (ps : List Prayer) (ft : Option PyDateTime),
      normalize_loop cfg l = Except.ok (ps, ft) →
      ∀ t, ft = some t → ∃ p ∈ ps, p.name = "Fajr" := by
  intro l
  induction l with
  | nil =>
      intro ps ft h t hft
      simp only [normalize_loop] at h
      cases h
      cases hft
  | cons hd tl ih =>
      intro ps ft h t hft
      obtain ⟨name, ts⟩ := hd
      by_cases hmem : name ∈ PRAYER_ORDER
      · by_cases hlen : (pySplit (clean_time ts) ':').length < 2
        · rw [normalize_loop_cons_short cfg tl hmem hlen] at h
          exact ih ps ft h t hft
        · cases hp0 : pyInt ((pySplit (clean_time ts) ':').getD 0 "") with
          | none =>
              rw [normalize_loop_cons_badint cfg tl hmem hlen (Or.inl hp0)] at h
              cases h
          | some hr =>
              cases hp1 : pyInt ((pySplit (clean_time ts) ':').getD 1 "") with
              | none =>
                  rw [normalize_loop_cons_badint cfg tl hmem hlen (Or.inr hp1)] at h
                  cases h
              | some mr =>
                  by_cases hrange :
                      0 ≤ adjust_hour name hr ∧ adjust_hour name hr ≤ 23 ∧ 0 ≤ mr ∧ mr ≤ 59
                  · rw [normalize_loop_cons_ok cfg tl hmem hlen hp0 hp1 hrange] at h
                    cases hrec : normalize_loop cfg tl with
                    | ok pr =>
                        obtain ⟨ps', ft'⟩ := pr
                        rw [hrec] at h
                        cases h
                        cases hft' : ft' with
                        | some t2 =>
                            obtain ⟨p, hp, hpn⟩ := ih ps' ft' hrec t2 hft'
                            exact ⟨p, List.mem_cons_of_mem _ hp, hpn⟩
                        | none =>
                            subst hft'
                            simp only [Option.orElse] at hft
                            by_cases hname : name = "Fajr"
                            · exact ⟨_, List.mem_cons_self _ _, hname⟩
                            · simp [hname] at hft
                    | error e => rw [hrec] at h; cases h
                  · rw [normalize_loop_cons_range_err cfg tl hmem hlen hp0 hp1 hrange] at h
                    cases h
      · rw [normalize_loop_cons_not_mem cfg ts tl hmem] at h
        exact ih ps ft h t hft

/-- With distinct raw keys, every emitted Fajr entry carries the recorded
`fajr_time`. -/
theorem normalize_loop_fajr_time (cfg : Config) :
    ∀ (l : List (String × String)) (ps : List Prayer) (ft : Option PyDateTime),
      normalize_loop cfg l = Except.ok (ps, ft) →
      (l.map Prod.fst).Nodup →
      ∀ t, ft = some t → ∀ p ∈ ps, p.name = "Fajr" → p.time = t := by
  intro l
  induction l with
  | nil =>
      intro ps ft h _ t hft
      simp only [normalize_loop] at h
      cases h
      cases hft
  | cons hd tl ih =>
      intro ps ft h hnd t hft
      obtain ⟨name, ts⟩ := hd
      have hnd2 : (tl.map Prod.fst).Nodup := (List.nodup_cons.mp (by simpa using hnd)).2
      have hhd : name ∉ tl.map Prod.fst := (List.nodup_cons.mp (by simpa using hnd)).1
      by_cases hmem : name ∈ PRAYER_ORDER
      · by_cases hlen : (pySplit (clean_time ts) ':').length < 2
        · rw [normalize_loop_cons_short cfg tl hmem hlen] at h
          exact ih ps ft h hnd2 t hft
        · cases hp0 : pyInt ((pySplit (clean_time ts) ':').getD 0 "") with
          | none =>
              rw [normalize_loop_cons_badint cfg tl hmem hlen (Or.inl hp0)] at h
              cases h
          | some hr =>
              cases hp1 : pyInt ((pySplit (clean_time ts) ':').getD 1 "") with
              | none =>
                  rw [normalize_loop_cons_badint cfg tl hmem hlen (Or.inr hp1)] at h
                  cases h
              | some mr =>
                  by_cases hrange :
                      0 ≤ adjust_hour name hr ∧ adjust_hour name hr ≤ 23 ∧ 0 ≤ mr ∧ mr ≤ 59
                  · rw [normalize_loop_cons_ok cfg tl hmem hlen hp0 hp1 hrange] at h
                    cases hrec : normalize_loop cfg tl with
                    | ok pr =>
                        obtain ⟨ps', ft'⟩ := pr
                        rw [hrec] at h
                        cases h
                        intro p hp hpn
                        rcases List.mem_cons.mp hp with rfl | hp'
                        · -- the head entry itself is the Fajr entry
                          have hname : name = "Fajr" := hpn
                          subst hname
                          have hft0 : ft' = none := by
                            refine normalize_loop_no_fajr cfg tl ps' ft' hrec ?_
                            exact hhd
                          subst hft0
                          simp only [Option.orElse] at hft
                          simp at hft
                          simp [loop_entry, ← hft]
                        · by_cases hname : name = "Fajr"
                          · exfalso
                            have hmm : p.name ∈ ps'.map Prayer.name :=
                              List.mem_map_of_mem _ hp'
                            have hsub := normalize_loop_names_sublist cfg tl ps' ft' hrec
                            have hintl : p.name ∈ tl.map Prod.fst := hsub.mem hmm
                            rw [hpn, ← hname] at hintl
                            exact hhd hintl
                          · cases hft' : ft' with
                            | some t2 =>
                                have ht2 : t2 = t := by
                                  rw [hft'] at hft
                                  simpa [Option.orElse] using hft
                                subst ht2
                                exact ih ps' ft' hrec hnd2 t2 hft' p hp' hpn
                            | none =>
                                subst hft'
                                simp [Option.orElse, hname] at hft
                    | error e => rw [hrec] at h; cases h
                  · rw [normalize_loop_cons_range_err cfg tl hmem hlen hp0 hp1 hrange] at h
                    cases h
      · rw [normalize_loop_cons_not_mem cfg ts tl hmem] at h
        exact ih ps ft h hnd2 t hft

/-- `stable_insert` permutes to consing the new element. -/
theorem stable_insert_perm {α : Type} (le : α → α → Bool) (x : α) (l : List α) :
    List.Perm (stable_insert le x l) (x :: l) := by
  induction l with
  | nil => rfl
  | cons y ys ih =>
      simp only [stable_insert]
      split
      · exact List.Perm.refl _
      · exact (List.Perm.cons y ih).trans (List.Perm.swap x y ys)

/-- `stable_sort` permutes its input. -/
theorem stable_sort_perm {α : Type} (le : α → α → Bool) (l : List α) :
    List.Perm (stable_sort le l) l := by
  induction l with
  | nil => rfl
  | cons x xs ih => exact (stable_insert_perm le x _).trans (List.Perm.cons x ih)

/-- `stable_insert` keeps a list pairwise-`le` for a transitive, total `le`. -/
theorem pairwise_stable_insert {α : Type} (le : α → α → Bool)
    (htrans : ∀ a b c, le a b = true → le b c = true → le a c = true)
    (htotal : ∀ a b, le a b = true ∨ le b a = true)
    (x : α) (l : List α) (hl : l.Pairwise (fun a b => le a b = true)) :
    (stable_insert le x l).Pairwise (fun a b => le a b = true) := by
  induction l with
  | nil => simp [stable_insert]
  | cons y ys ih =>
      rcases List.pairwise_cons.mp hl with ⟨hy, hys⟩
      simp only [stable_insert]
      split
      · rename_i hxy
        refine List.pairwise_cons.mpr ⟨?_, hl⟩
        intro z hz
        rcases List.mem_cons.mp hz with rfl | hz'
        · exact hxy
        · exact htrans x y z hxy (hy z hz')
      · rename_i hxy
        have hyx : le y x = true := by
          rcases htotal x y with h | h
          · exact absurd h hxy
          · exact h
        refine List.pairwise_cons.mpr ⟨?_, ih hys⟩
        intro z hz
        have hz2 := (stable_insert_perm le x ys).mem_iff.mp hz
        rcases List.mem_cons.mp hz2 with rfl | hz'
        · exact hyx
        · exact hy z hz'

/-- `stable_sort` sorts, for a transitive, total `le`. -/
theorem pairwise_stable_sort {α : Type} (le : α → α → Bool)
    (htrans : ∀ a b c, le a b = true → le b c = true → le a c = true)
    (htotal : ∀ a b, le a b = true ∨ le b a = true) (l : List α) :
    (stable_sort le l).Pairwise (fun a b => le a b = true) := by
  induction l with
  | nil => simp [stable_sort]
  | cons x xs ih => exact pairwise_stable_insert le htrans htotal x _ ih

/-- The keys of the order-sorted raw pairs are pairwise ordered by `order_key`. -/
theorem sort_raw_keys_pairwise (raw : List (String × String)) :
    ((sort_raw raw).map Prod.fst).Pairwise (fun a b => order_key a ≤ order_key b) := by
  have hs := pairwise_stable_sort
    (fun a b : String × String => decide (order_key a.1 ≤ order_key b.1))
    (fun a b c hab hbc => by
      simp only [decide_eq_true_eq] at *
      omega)
    (fun a b => by
      rcases Nat.le_total (order_key a.1) (order_key b.1) with h | h
      · exact Or.inl (by simpa using h)
      · exact Or.inr (by simpa using h))
    raw
  have hp : (sort_raw raw).Pairwise (fun a b => order_key a.1 ≤ order_key b.1) := by
    refine hs.imp ?_
    intro a b hab
    simpa using hab
  exact List.pairwise_map.mpr hp

/-- The keys of the order-sorted raw pairs are a permutation of the raw keys. -/
theorem sort_raw_keys_perm (raw : List (String × String)) :
    List.Perm ((sort_raw raw).map Prod.fst) (raw.map Prod.fst) :=
  (stable_sort_perm _ raw).map Prod.fst

/-- `next_enabled_scan` returns the first list entry that is enabled and
strictly after `now` (after timezone coercion). -/
theorem next_enabled_scan_eq_find (now : PyDateTime) (l : List Prayer) :
    next_enabled_scan now l
      = l.find? (fun p => p.enabled && decide (instant now < instant (coerce_tz p.time now))) := by
  induction l with
  | nil => rfl
  | cons p rest ih =>
      cases he : p.enabled with
      | false => simp [next_enabled_scan, he, ih]
      | true =>
          by_cases ht : instant now < instant (coerce_tz p.time now)
          · simp [next_enabled_scan, he, ht]
          · simp [next_enabled_scan, he, ht, ih]

/-- `next_any_scan` returns the first list entry strictly after `now`
(after timezone coercion). -/
theorem next_any_scan_eq_find (now : PyDateTime) (l : List Prayer) :
    next_any_scan now l
      = l.find? (fun p => decide (instant now < instant (coerce_tz p.time now))) := by
  induction l with
  | nil => rfl
  | cons p rest ih =>
      by_cases ht : instant now < instant (coerce_tz p.time now)
      · simp [next_any_scan, ht]
      · simp [next_any_scan, ht, ih]

/-! ### Claim theorems -/

/-- C4: the reconciliation of `played_today` on a successful refresh: same date
as the previous snapshot copies the set forward unchanged, a different date or
no previous snapshot yields the empty set. -/
theorem c4_played_today_reconciliation (prev : Option PrayerData) (today : String)
    (prayers : List Prayer) (hm hd : Option Int) (hmn : Option String) :
    (∀ d, prev = some d → d.date = today →
        (build_snapshot prev today prayers hm hd hmn).played_today = d.played_today)
    ∧ (∀ d, prev = some d → d.date ≠ today →
        (build_snapshot prev today prayers hm hd hmn).played_today = ∅)
    ∧ (prev = none → (build_snapshot prev today prayers hm hd hmn).played_today = ∅) := by
  refine ⟨?_, ?_, ?_⟩
  · rintro d rfl hdate
    simp [build_snapshot, hdate]
  · rintro d rfl hdate
    simp [build_snapshot, hdate, PrayerData.init]
  · rintro rfl
    simp [build_snapshot, PrayerData.init]

/-- Witness for C4 at a concrete previous snapshot with the same date. -/
theorem c4_witness :
    (build_snapshot
        (some { prayers := [], date := "2026-02-10", played_today := {"Fajr", "Dhuhr"},
                hijri_month := some 9, hijri_day := some 1, hijri_month_name := some "Ramadan",
                is_ramadan := true })
        "2026-02-10" [] (some 9) (some 1) (some "Ramadan")).played_today
      = ({"Fajr", "Dhuhr"} : Finset String) := by
  have h := (c4_played_today_reconciliation
      (some { prayers := [], date := "2026-02-10", played_today := {"Fajr", "Dhuhr"},
              hijri_month := some 9, hijri_day := some 1, hijri_month_name := some "Ramadan",
              is_ramadan := true })
      "2026-02-10" [] (some 9) (some 1) (some "Ramadan")).1 _ rfl rfl
  simpa using h

/-- C5: when the fetch fails, the update raises `UpdateFailed` and the
scheduler boundary keeps the whole previous snapshot (entries, date,
`played_today`, hijri metadata) unchanged, reporting a degraded update. -/
theorem c5_fetch_failure_retains_snapshot (cfg : Config) (prev : Option PrayerData)
    (today err : String) :
    refresh_step prev (async_update_data cfg prev today (Except.error err)) = (prev, false) := rfl

/-- C7: the hour disambiguation used by normalization: `Asr`, `Maghrib` and
`Isha` with parsed hour below 10 gain 12; `Fajr`, `Sunrise` and `Dhuhr` are
never adjusted. -/
theorem c7_hour_disambiguation (name : String) (h : Int) :
    ((name = "Asr" ∨ name = "Maghrib" ∨ name = "Isha") → h < 10 → adjust_hour name h = h + 12)
    ∧ ((name = "Fajr" ∨ name = "Sunrise" ∨ name = "Dhuhr") → adjust_hour name h = h) := by
  constructor
  · intro hn hlt
    simp [adjust_hour, hn, hlt]
  · intro hn
    have hne : ¬(name = "Asr" ∨ name = "Maghrib" ∨ name = "Isha") := by
      rcases hn with rfl | rfl | rfl <;> simp
    simp [adjust_hour, hne]

/-- Witness for C7: `Asr` at parsed hour 3 becomes 15, `Fajr` at 4 stays 4. -/
theorem c7_witness : adjust_hour "Asr" 3 = 15 ∧ adjust_hour "Fajr" 4 = 4 := by
  constructor
  · have h := (c7_hour_disambiguation "Asr" 3).1 (Or.inl rfl) (by norm_num)
    simpa using h
  · exact (c7_hour_disambiguation "Fajr" 4).2 (Or.inl rfl)

/-- C8: the countdown minutes value and the hours/minutes/seconds breakdown are
never negative, and both clamp to zero whenever the entry's (coerced) time is
at or before `now`. -/
theorem c8_countdown_clamped (p : Prayer) (now : PyDateTime) :
    0 ≤ countdown_minutes p now
    ∧ 0 ≤ (countdown_breakdown p now).1
    ∧ 0 ≤ (countdown_breakdown p now).2.1
    ∧ 0 ≤ (countdown_breakdown p now).2.2
    ∧ (instant (coerce_tz p.time now) ≤ instant now →
        countdown_minutes p now = 0 ∧ countdown_breakdown p now = (0, 0, 0)) := by
  refine ⟨le_max_left _ _, ?_, ?_, ?_, ?_⟩
  · exact Int.ediv_nonneg (le_max_left _ _) (by norm_num)
  · exact Int.ediv_nonneg (Int.emod_nonneg _ (by norm_num)) (by norm_num)
  · exact Int.emod_nonneg _ (by norm_num)
  · intro hle
    have hdiff : instant (coerce_tz p.time now) - instant now ≤ 0 := by omega
    have htd : (instant (coerce_tz p.time now) - instant now).tdiv 60 ≤ 0 := by
      have h1 : (0 : Int) ≤ -(instant (coerce_tz p.time now) - instant now) := by omega
      have h2 : (0 : Int) ≤ (-(instant (coerce_tz p.time now) - instant now)).tdiv 60 :=
        Int.tdiv_nonneg h1 (by norm_num)
      rw [Int.neg_tdiv] at h2
      omega
    constructor
    · simp only [countdown_minutes]
      omega
    · have hmax : max 0 (instant (coerce_tz p.time now) - instant now) = 0 :=
        max_eq_left hdiff
      simp only [countdown_breakdown, hmax]
      rfl

/-- Witness for C8: an entry 100 seconds in the past yields countdown 0 and a
zero breakdown. -/
theorem c8_witness :
    countdown_minutes { name := "Fajr", time := ⟨0, none⟩, time_str := "00:00", enabled := true }
        ⟨100, none⟩ = 0
    ∧ countdown_breakdown { name := "Fajr", time := ⟨0, none⟩, time_str := "00:00", enabled := true }
        ⟨100, none⟩ = (0, 0, 0) :=
  (c8_countdown_clamped
      { name := "Fajr", time := ⟨0, none⟩, time_str := "00:00", enabled := true }
      ⟨100, none⟩).2.2.2.2 (by norm_num [instant, coerce_tz])

/-- C9: the playback status is a pure mapping with precedence
downloading over playing over idle. -/
theorem c9_status_resolver (is_downloading is_playing : Bool) :
    (is_downloading = true → status_native_value is_downloading is_playing = "downloading")
    ∧ (is_downloading = false → is_playing = true →
        status_native_value is_downloading is_playing = "playing")
    ∧ (is_downloading = false → is_playing = false →
        status_native_value is_downloading is_playing = "idle") := by
  refine ⟨?_, ?_, ?_⟩
  · intro h1
    simp [status_native_value, h1]
  · intro h1 h2
    simp [status_native_value, h1, h2]
  · intro h1 h2
    simp [status_native_value, h1, h2]

/-- Witness for C9: both flags set resolves to `downloading`. -/
theorem c9_witness : status_native_value true true = "downloading" :=
  (c9_status_resolver true true).1 rfl

/-- C10: before any successful refresh (coordinator data absent), every
observer degrades to its defined empty value: prayer lookup, time value and
attributes are `none`, both next-prayer queries and the countdown are `none`,
and the Ramadan sensor reports `"Unknown"`. -/
theorem c10_no_snapshot_degrades (prayer_name : String) (now_resolve now : PyDateTime) :
    get_prayer none prayer_name = none
    ∧ prayer_time_native_value none prayer_name = none
    ∧ prayer_time_attrs none prayer_name = none
    ∧ get_next_prayer_enabled none now = none
    ∧ get_next_prayer_any none now = none
    ∧ countdown_native_value none now_resolve now = none
    ∧ ramadan_native_value none = "Unknown" :=
  ⟨rfl, rfl, rfl, rfl, rfl, rfl, rfl⟩

/-- C2 counterexample: the raw entry `Fajr: "4:3a"` has two colon components
but a non-integer minute, so `int()` raises and the whole normalization — and
with it the refresh — fails instead of dropping the entry. -/
theorem c2_counterexample :
    normalize_times {} false [("Fajr", "4:3a")]
        = Except.error "ValueError: invalid literal for int"
    ∧ async_update_data {} none "2026-02-10"
          (Except.ok ([("Fajr", "4:3a")], none, none, none))
        = Except.error "ValueError: invalid literal for int" :=
  ⟨by decide, by decide⟩

/-- C2 amended: an entry whose cleaned time string has fewer than two
colon-separated components is dropped silently and normalization of the rest
proceeds; but an entry with enough components whose hour or minute component is
not a valid integer aborts the whole normalization with an error. -/
theorem c2_amended_parse_handling (cfg : Config) (name ts : String)
    (rest : List (String × String)) :
    (name ∈ PRAYER_ORDER → (pySplit (clean_time ts) ':').length < 2 →
      normalize_loop cfg ((name, ts) :: rest) = normalize_loop cfg rest)
    ∧ (name ∈ PRAYER_ORDER → 2 ≤ (pySplit (clean_time ts) ':').length →
        (pyInt ((pySplit (clean_time ts) ':').getD 0 "") = none
          ∨ pyInt ((pySplit (clean_time ts) ':').getD 1 "") = none) →
        normalize_loop cfg ((name, ts) :: rest)
          = Except.error "ValueError: invalid literal for int") := by
  constructor
  · intro hmem hlen
    exact normalize_loop_cons_short cfg rest hmem hlen
  · intro hmem hlen hnone
    have hnl : ¬ (pySplit (clean_time ts) ':').length < 2 := by omega
    exact normalize_loop_cons_badint cfg rest hmem hnl hnone

/-- Witness for C2 amended: `"4:30:00"`-free short string is dropped, and
`Fajr: "4:3a"` aborts with the int error. -/
theorem c2_witness :
    normalize_loop {} [("Fajr", "430"), ("Dhuhr", "11:30")]
        = normalize_loop {} [("Dhuhr", "11:30")]
    ∧ normalize_loop {} [("Fajr", "4:3a")]
        = Except.error "ValueError: invalid literal for int" := by
  constructor
  · exact (c2_amended_parse_handling {} "Fajr" "430" [("Dhuhr", "11:30")]).1
      (by decide) (by decide)
  · exact (c2_amended_parse_handling {} "Fajr" "4:3a" []).2
      (by decide) (by decide) (Or.inr (by decide))

/-- Unfolding of `normalize_times` on a loop that records no `fajr_time`. -/
theorem normalize_times_eq_none (cfg : Config) (ram : Bool) (raw : List (String × String))
    (ps : List Prayer)
    (hloop : normalize_loop cfg (sort_raw raw) = Except.ok (ps, none)) :
    normalize_times cfg ram raw = Except.ok ps := by
  rw [normalize_times.eq_def, hloop]

/-- Unfolding of `normalize_times` on a loop that records a `fajr_time`. -/
theorem normalize_times_eq_some (cfg : Config) (ram : Bool) (raw : List (String × String))
    (ps : List Prayer) (t : PyDateTime)
    (hloop : normalize_loop cfg (sort_raw raw) = Except.ok (ps, some t)) :
    normalize_times cfg ram raw = Except.ok
      (if cfg.suhoor_enabled then
        if cfg.suhoor_ramadan_only = false ∨ ram then
          insert_at (fajr_idx ps) (suhoor_entry cfg t) ps
        else ps
      else ps) := by
  rw [normalize_times.eq_def, hloop]

/-- Unfolding of `normalize_times` on a failing loop. -/
theorem normalize_times_eq_error (cfg : Config) (ram : Bool) (raw : List (String × String))
    (e : String) (hloop : normalize_loop cfg (sort_raw raw) = Except.error e) :
    normalize_times cfg ram raw = Except.error e := by
  rw [normalize_times.eq_def, hloop]

/-- When a Fajr entry exists, `fajr_idx` is a valid index pointing at a Fajr
entry. -/
theorem fajr_idx_spec (ps : List Prayer) (hex : ∃ p ∈ ps, p.name = "Fajr") :
    fajr_idx ps < ps.length ∧ (ps[fajr_idx ps]?).map Prayer.name = some "Fajr" := by
  obtain ⟨p, hp, hpn⟩ := hex
  have hsome : ps.findIdx? (fun q => q.name = "Fajr") = some (ps.findIdx (fun q => q.name = "Fajr")) := by
    refine List.findIdx?_eq_some_of_exists ⟨p, hp, ?_⟩
    simpa using hpn
  obtain ⟨hlt, hpred, _⟩ := List.findIdx?_eq_some_iff_getElem.mp hsome
  have hfi : fajr_idx ps = ps.findIdx (fun q => q.name = "Fajr") := by
    simp [fajr_idx, hsome]
  rw [hfi]
  refine ⟨hlt, ?_⟩
  rw [List.getElem?_eq_getElem hlt]
  simpa using hpred

/-- Positions of the inserted Suhoor entry and the entry that follows it. -/
theorem insert_fajr_spec (cfg : Config) (t : PyDateTime) (ps : List Prayer)
    (hex : ∃ p ∈ ps, p.name = "Fajr") :
    (insert_at (fajr_idx ps) (suhoor_entry cfg t) ps)[fajr_idx ps]? = some (suhoor_entry cfg t)
    ∧ (insert_at (fajr_idx ps) (suhoor_entry cfg t) ps)[fajr_idx ps + 1]? = ps[fajr_idx ps]? := by
  have hlt := (fajr_idx_spec ps hex).1
  have hle : fajr_idx ps ≤ ps.length := le_of_lt hlt
  constructor
  · rw [insert_at_getElem _ _ _ _ hle]
    simp
  · rw [insert_at_getElem _ _ _ _ hle]
    have h1 : ¬ fajr_idx ps + 1 < fajr_idx ps := by omega
    have h2 : ¬ fajr_idx ps + 1 = fajr_idx ps := by omega
    simp [h1, h2]

/-- None of the loop-built entries is named Suhoor. -/
theorem normalize_loop_no_suhoor (cfg : Config) (l : List (String × String))
    (ps : List Prayer) (ft : Option PyDateTime)
    (h : normalize_loop cfg l = Except.ok (ps, ft)) :
    ∀ p ∈ ps, p.name ≠ "Suhoor" := by
  intro p hp hs
  have hmem := normalize_loop_names_mem cfg l ps ft h p hp
  rw [hs] at hmem
  exact (by decide : "Suhoor" ∉ PRAYER_ORDER) hmem

/-- C6: the next-enabled query returns the first entry strictly after `now`
whose enabled flag is set (none when no such entry exists); the next-any query
is the same scan without the enabled filter; a naive entry time is coerced into
`now`'s timezone before comparison. -/
theorem c6_next_event_resolver (d : PrayerData) (now : PyDateTime) :
    get_next_prayer_enabled (some d) now
      = d.prayers.find? (fun p => p.enabled && decide (instant now < instant (coerce_tz p.time now)))
    ∧ get_next_prayer_any (some d) now
      = d.prayers.find? (fun p => decide (instant now < instant (coerce_tz p.time now)))
    ∧ (get_next_prayer_enabled (some d) now = none ↔
        ∀ p ∈ d.prayers, ¬ (p.enabled = true ∧ instant now < instant (coerce_tz p.time now)))
    ∧ (get_next_prayer_any (some d) now = none ↔
        ∀ p ∈ d.prayers, ¬ instant now < instant (coerce_tz p.time now))
    ∧ (∀ t : PyDateTime, t.tz = none → coerce_tz t now = { naive := t.naive, tz := now.tz }) := by
  have h1 : get_next_prayer_enabled (some d) now = next_enabled_scan now d.prayers := rfl
  have h2 : get_next_prayer_any (some d) now = next_any_scan now d.prayers := rfl
  refine ⟨h1.trans (next_enabled_scan_eq_find now d.prayers),
          h2.trans (next_any_scan_eq_find now d.prayers), ?_, ?_, ?_⟩
  · rw [h1, next_enabled_scan_eq_find, List.find?_eq_none]
    constructor
    · intro h p hp hc
      have hq := h p hp
      simp only [Bool.and_eq_true, decide_eq_true_eq] at hq
      exact hq ⟨hc.1, hc.2⟩
    · intro h p hp
      simp only [Bool.and_eq_true, decide_eq_true_eq]
      intro hc
      exact h p hp ⟨hc.1, hc.2⟩
  · rw [h2, next_any_scan_eq_find, List.find?_eq_none]
    constructor
    · intro h p hp hc
      have hq := h p hp
      simp only [decide_eq_true_eq] at hq
      exact hq hc
    · intro h p hp
      simp only [decide_eq_true_eq]
      exact h p hp
  · intro t ht
    cases t with
    | mk naive tz =>
        cases ht
        rfl

/-- Witness for C6 at the spec's example: entries 05:00 (disabled),
12:00 (enabled), 15:30 (enabled) and now 13:00; both queries return the
15:30 entry. -/
theorem c6_witness :
    get_next_prayer_enabled
        (some { prayers :=
                  [{ name := "Sunrise", time := ⟨18000, none⟩, time_str := "05:00", enabled := false },
                   { name := "Dhuhr", time := ⟨43200, none⟩, time_str := "12:00", enabled := true },
                   { name := "Asr", time := ⟨55800, none⟩, time_str := "15:30", enabled := true }],
                date := "2026-02-10", played_today := ∅, hijri_month := none,
                hijri_day := none, hijri_month_name := none, is_ramadan := false })
        ⟨46800, none⟩
      = some { name := "Asr", time := ⟨55800, none⟩, time_str := "15:30", enabled := true }
    ∧ get_next_prayer_any
        (some { prayers :=
                  [{ name := "Sunrise", time := ⟨18000, none⟩, time_str := "05:00", enabled := false },
                   { name := "Dhuhr", time := ⟨43200, none⟩, time_str := "12:00", enabled := true },
                   { name := "Asr", time := ⟨55800, none⟩, time_str := "15:30", enabled := true }],
                date := "2026-02-10", played_today := ∅, hijri_month := none,
                hijri_day := none, hijri_month_name := none, is_ramadan := false })
        ⟨46800, none⟩
      = some { name := "Asr", time := ⟨55800, none⟩, time_str := "15:30", enabled := true } := by
  constructor
  · rw [(c6_next_event_resolver _ ⟨46800, none⟩).1]
    decide
  · rw [(c6_next_event_resolver _ ⟨46800, none⟩).2.1]
    decide

/-- C1 counterexample: the raw mapping `{Fajr: "12:00", Dhuhr: "5:00"}` under
the default configuration normalizes to Fajr at 12:00 followed by Dhuhr at
05:00, which is not sorted ascending by entry time. -/
theorem c1_counterexample :
    normalize_times {} false [("Fajr", "12:00"), ("Dhuhr", "5:00")]
      = Except.ok
          [{ name := "Fajr", time := ⟨43200, none⟩, time_str := "12:00", enabled := true },
           { name := "Dhuhr", time := ⟨18000, none⟩, time_str := "05:00", enabled := true }]
    ∧ ¬ List.Pairwise (fun a b : Prayer => a.time.naive ≤ b.time.naive)
        [{ name := "Fajr", time := ⟨43200, none⟩, time_str := "12:00", enabled := true },
         { name := "Dhuhr", time := (⟨18000, none⟩ : PyDateTime), time_str := "05:00", enabled := true }] := by
  constructor
  · decide
  · intro h
    have h2 := (List.pairwise_cons.mp h).1
      { name := "Dhuhr", time := ⟨18000, none⟩, time_str := "05:00", enabled := true }
      (by simp)
    simp at h2

/-- C1 amended: for raw mappings with distinct keys, the normalized entries
have pairwise-distinct names, the non-Suhoor entries are sorted by canonical
prayer order (the code sorts by `PRAYER_ORDER` position, not by time), and a
Suhoor entry, when present, sits immediately — hence strictly — before a Fajr
entry in the sequence. -/
theorem c1_amended_structure (cfg : Config) (ram : Bool) (raw : List (String × String))
    (l : List Prayer) (hnd : (raw.map Prod.fst).Nodup)
    (h : normalize_times cfg ram raw = Except.ok l) :
    (l.map Prayer.name).Nodup
    ∧ (l.filter (fun p => p.name ≠ "Suhoor")).Pairwise
        (fun a b => order_key a.name ≤ order_key b.name)
    ∧ (∀ j s, l[j]? = some s → s.name = "Suhoor" →
        ∃ q, l[j+1]? = some q ∧ q.name = "Fajr") := by
  cases hloop : normalize_loop cfg (sort_raw raw) with
  | error e =>
      rw [normalize_times_eq_error cfg ram raw e hloop] at h
      cases h
  | ok pr =>
      obtain ⟨ps, ft⟩ := pr
      have hsub := normalize_loop_names_sublist cfg _ ps ft hloop
      have hnosuh := normalize_loop_no_suhoor cfg _ ps ft hloop
      have hnodup_sorted : ((sort_raw raw).map Prod.fst).Nodup :=
        (sort_raw_keys_perm raw).nodup_iff.mpr hnd
      have hps_nodup : (ps.map Prayer.name).Nodup := hsub.nodup hnodup_sorted
      have hnames : (ps.map Prayer.name).Pairwise (fun a b => order_key a ≤ order_key b) :=
        List.Pairwise.sublist hsub (sort_raw_keys_pairwise raw)
      have hps_pair : ps.Pairwise (fun a b => order_key a.name ≤ order_key b.name) := by
        have hpm := List.pairwise_map.mp hnames
        exact hpm
      have hfilter : ps.filter (fun p => p.name ≠ "Suhoor") = ps :=
        List.filter_eq_self.mpr (fun p hp => by simpa using hnosuh p hp)
      have hbase : ((ps.map Prayer.name).Nodup
          ∧ (ps.filter (fun p => p.name ≠ "Suhoor")).Pairwise
              (fun a b => order_key a.name ≤ order_key b.name)
          ∧ (∀ j s, ps[j]? = some s → s.name = "Suhoor" →
              ∃ q, ps[j+1]? = some q ∧ q.name = "Fajr")) := by
        refine ⟨hps_nodup, ?_, ?_⟩
        · rw [hfilter]
          exact hps_pair
        · intro j s hj hs
          exact absurd hs (hnosuh s (List.getElem?_mem hj))
      cases ft with
      | none =>
          rw [normalize_times_eq_none cfg ram raw ps hloop] at h
          have hl := (Except.ok.inj h).symm
          subst hl
          exact hbase
      | some t =>
          rw [normalize_times_eq_some cfg ram raw ps t hloop] at h
          have hl := Except.ok.inj h
          by_cases hen : cfg.suhoor_enabled = true
          · by_cases hrc : cfg.suhoor_ramadan_only = false ∨ ram = true
            · rw [if_pos hen, if_pos hrc] at hl
              subst hl
              obtain ⟨pf, hpf, hpfn⟩ := normalize_loop_fajr_exists cfg _ ps _ hloop t rfl
              have hex : ∃ p ∈ ps, p.name = "Fajr" := ⟨pf, hpf, hpfn⟩
              have hlt := (fajr_idx_spec ps hex).1
              have hle : fajr_idx ps ≤ ps.length := le_of_lt hlt
              refine ⟨?_, ?_, ?_⟩
              · -- names remain distinct after inserting Suhoor
                have hperm : List.Perm
                    ((insert_at (fajr_idx ps) (suhoor_entry cfg t) ps).map Prayer.name)
                    ((suhoor_entry cfg t :: ps).map Prayer.name) :=
                  (insert_at_perm (fajr_idx ps) (suhoor_entry cfg t) ps).map Prayer.name
                refine hperm.nodup_iff.mpr ?_
                refine List.nodup_cons.mpr ⟨?_, hps_nodup⟩
                intro hmm
                obtain ⟨p, hp, hpe⟩ := List.mem_map.mp hmm
                exact hnosuh p hp (by simpa [suhoor_entry] using hpe)
              · -- filtering out Suhoor recovers the order-sorted base entries
                have hpredf : (fun p : Prayer => decide (p.name ≠ "Suhoor")) (suhoor_entry cfg t) = false := by
                  simp [suhoor_entry]
                have hfil : (insert_at (fajr_idx ps) (suhoor_entry cfg t) ps).filter
                      (fun p => p.name ≠ "Suhoor") = ps := by
                  have hsplit : (insert_at (fajr_idx ps) (suhoor_entry cfg t) ps).filter
                        (fun p => p.name ≠ "Suhoor")
                      = (ps.take (fajr_idx ps)).filter (fun p => p.name ≠ "Suhoor")
                        ++ (ps.drop (fajr_idx ps)).filter (fun p => p.name ≠ "Suhoor") := by
                    simp [insert_at, List.filter_append, List.filter_cons, hpredf, suhoor_entry]
                  rw [hsplit, ← List.filter_append, List.take_append_drop, hfilter]
                rw [hfil]
                exact hps_pair
              · -- the Suhoor entry sits immediately before the Fajr entry
                intro j s hj hs
                rw [insert_at_getElem _ _ _ _ hle] at hj
                by_cases hj1 : j < fajr_idx ps
                · rw [if_pos hj1] at hj
                  exact absurd hs (hnosuh s (List.getElem?_mem hj))
                · by_cases hj2 : j = fajr_idx ps
                  · rw [hj2]
                    rw [insert_at_getElem _ _ _ _ hle]
                    have h1 : ¬ fajr_idx ps + 1 < fajr_idx ps := by omega
                    have h2 : ¬ fajr_idx ps + 1 = fajr_idx ps := by omega
                    rw [if_neg h1, if_neg h2]
                    have hg : ps[fajr_idx ps + 1 - 1]? = some (ps.get ⟨fajr_idx ps, hlt⟩) := by
                      have hj11 : fajr_idx ps + 1 - 1 = fajr_idx ps := by omega
                      rw [hj11, List.getElem?_eq_getElem hlt]
                      rfl
                    refine ⟨ps.get ⟨fajr_idx ps, hlt⟩, hg, ?_⟩
                    have hnm := (fajr_idx_spec ps hex).2
                    rw [List.getElem?_eq_getElem hlt] at hnm
                    simpa using hnm
                  · rw [if_neg hj1, if_neg hj2] at hj
                    exact absurd hs (hnosuh s (List.getElem?_mem hj))
            · rw [if_pos hen, if_neg hrc] at hl
              subst hl
              exact hbase
          · rw [if_neg hen] at hl
            subst hl
            exact hbase

/-- Witness for C1 amended at a concrete raw mapping. -/
theorem c1_witness :
    (([{ name := "Fajr", time := (⟨16200, none⟩ : PyDateTime), time_str := "04:30", enabled := true },
       { name := "Asr", time := ⟨54900, none⟩, time_str := "15:15", enabled := true }] : List Prayer).map
        Prayer.name).Nodup :=
  (c1_amended_structure {} false [("Fajr", "4:30"), ("Asr", "3:15")] _
    (by decide) (by decide)).1

/-- C3: with Suhoor enabled and the Ramadan condition met, a parsed Fajr entry
makes normalization insert a Suhoor entry — enabled, with time exactly the
Fajr time minus the configured offset in minutes — immediately before the Fajr
entry; without a parsed Fajr entry no Suhoor entry is produced. -/
theorem c3_suhoor_injection (cfg : Config) (ram : Bool) (raw : List (String × String))
    (ps : List Prayer) (ft : Option PyDateTime)
    (hnd : (raw.map Prod.fst).Nodup)
    (hen : cfg.suhoor_enabled = true)
    (hram : cfg.suhoor_ramadan_only = false ∨ ram = true)
    (hloop : normalize_loop cfg (sort_raw raw) = Except.ok (ps, ft)) :
    (∀ t, ft = some t →
      normalize_times cfg ram raw
          = Except.ok (insert_at (fajr_idx ps) (suhoor_entry cfg t) ps)
      ∧ (suhoor_entry cfg t).time
          = { naive := t.naive - cfg.suhoor_offset_minutes * 60, tz := t.tz }
      ∧ (suhoor_entry cfg t).enabled = true
      ∧ (insert_at (fajr_idx ps) (suhoor_entry cfg t) ps)[fajr_idx ps]?
          = some (suhoor_entry cfg t)
      ∧ ((insert_at (fajr_idx ps) (suhoor_entry cfg t) ps)[fajr_idx ps + 1]?).map Prayer.name
          = some "Fajr"
      ∧ ((insert_at (fajr_idx ps) (suhoor_entry cfg t) ps)[fajr_idx ps + 1]?).map Prayer.time
          = some t)
    ∧ (ft = none →
        normalize_times cfg ram raw = Except.ok ps ∧ ∀ p ∈ ps, p.name ≠ "Suhoor") := by
  constructor
  · intro t hft
    subst hft
    have hex : ∃ p ∈ ps, p.name = "Fajr" :=
      normalize_loop_fajr_exists cfg _ ps _ hloop t rfl
    have hspec := insert_fajr_spec cfg t ps hex
    have hidx := fajr_idx_spec ps hex
    have hfa : (ps[fajr_idx ps]?).map Prayer.time = some t := by
      obtain ⟨q, hq, hqn⟩ : ∃ q, ps[fajr_idx ps]? = some q ∧ q.name = "Fajr" := by
        obtain ⟨hlt, hname⟩ := hidx
        rw [List.getElem?_eq_getElem hlt] at hname ⊢
        exact ⟨ps.get ⟨fajr_idx ps, hlt⟩, rfl, by simpa using hname⟩
      have := normalize_loop_fajr_time cfg _ ps _ hloop
        ((sort_raw_keys_perm raw).nodup_iff.mpr hnd) t rfl q (List.getElem?_mem hq) hqn
      rw [hq]
      simp [this]
    refine ⟨?_, rfl, rfl, hspec.1, ?_, ?_⟩
    · rw [normalize_times_eq_some cfg ram raw ps t hloop]
      simp [hen, hram]
    · rw [hspec.2]
      obtain ⟨hlt, hname⟩ := hidx
      exact hname
    · rw [hspec.2]
      exact hfa
  · intro hft
    subst hft
    constructor
    · exact normalize_times_eq_none cfg ram raw ps hloop
    · exact normalize_loop_no_suhoor cfg _ ps _ hloop

/-- Witness for C3: Fajr at 04:30 with offset 60 and Ramadan active yields a
Suhoor entry at 03:30 immediately before Fajr. -/
theorem c3_witness :
    normalize_times { suhoor_enabled := true } true [("Fajr", "4:30"), ("Dhuhr", "11:30")]
      = Except.ok (insert_at
          (fajr_idx [{ name := "Fajr", time := (⟨16200, none⟩ : PyDateTime), time_str := "04:30", enabled := true },
                     { name := "Dhuhr", time := ⟨41400, none⟩, time_str := "11:30", enabled := true }])
          (suhoor_entry { suhoor_enabled := true } ⟨16200, none⟩)
          [{ name := "Fajr", time := ⟨16200, none⟩, time_str := "04:30", enabled := true },
           { name := "Dhuhr", time := ⟨41400, none⟩, time_str := "11:30", enabled := true }]) :=
  ((c3_suhoor_injection { suhoor_enabled := true } true
      [("Fajr", "4:30"), ("Dhuhr", "11:30")]
      [{ name := "Fajr", time := ⟨16200, none⟩, time_str := "04:30", enabled := true },
       { name := "Dhuhr", time := ⟨41400, none⟩, time_str := "11:30", enabled := true }]
      (some ⟨16200, none⟩) (by decide) rfl (Or.inr rfl) (by decide)).1
    ⟨16200, none⟩ rfl).1

end Minaret
